import Mathlib

/-!
Shallow embedding of the response-cache subsystem of axios4go (`cache.go`),
together with the policy decision functions it exports.

Modelling conventions:
* `time.Time` instants and `time.Duration` values are integers (`Int`); the
  current instant (`time.Now()`) is threaded through every operation as an
  explicit `now` parameter.  `t1.After t2` is `t1 > t2`, `t1.Before t2` is
  `t1 < t2`, `t.Add d` is `t + d`.
* Go reference values are heap addresses (`Nat`): a `[]byte` slice, an
  `http.Header` map and a `*CacheEntry` pointer are each an index into the
  corresponding component of an explicit `Heap`.  Mutation through a
  reference is functional update of the heap.
* The Go map `map[string]*memoryCacheEntry` is an association list from keys
  to `*CacheEntry` addresses; its iteration order is the list order (Go map
  iteration order is arbitrary, the spec's eviction sentence makes the same
  caveat).  The one-field wrapper `memoryCacheEntry` (a fresh cell allocated
  at every `Set`) is elided: the list stores the wrapped `*CacheEntry`
  address directly.
* The `sync` lock, the atomic counters and the background goroutine are
  sequentialised: every operation is an atomic state transition, the
  cleanup goroutine's body (`cleanupExpired`) is a transition of its own,
  and `close(stopChan)` is recorded by the counter `stopChanClosed` (Go
  panics when a channel is closed twice, so a reachable value above 1 would
  mean a crash).
-/

/-- Contents of a Go `[]byte`: a byte list (bytes as `Nat`). -/
abbrev Bytes := List Nat

/-- Contents of a Go `http.Header` (`map[string][]string`). -/
abbrev HeaderMap := List (String × List String)

/-- CacheEntry (cache.go).  `Body` and `Headers` are Go reference types, so
the struct holds their heap addresses; the two timestamps are integer
instants. -/
structure CacheEntry where
  Body : Nat
  StatusCode : Int
  Headers : Nat
  CreatedAt : Int
  ExpiresAt : Int
  deriving Repr, DecidableEq, Inhabited

/-- Read a heap cell; a dangling address reads the default value (Go cannot
produce a dangling pointer, so theorems about writes carry an in-range
hypothesis instead). -/
def cellAt {α : Type} [Inhabited α] : List α → Nat → α
  | [], _ => default
  | e :: _, 0 => e
  | _ :: rest, n + 1 => cellAt rest n

/-- Write a heap cell (no-op when the address is out of range). -/
def setCell {α : Type} : List α → Nat → α → List α
  | [], _, _ => []
  | _ :: rest, 0, e => e :: rest
  | x :: rest, n + 1, e => x :: setCell rest n e

/-- The mutable heap: Go references are indices into these cell lists. -/
structure Heap where
  bodies : List Bytes
  headerMaps : List HeaderMap
  entryCells : List CacheEntry
  deriving Repr, Inhabited

/-- Dereference a `*CacheEntry`. -/
def Heap.entryAt (h : Heap) (a : Nat) : CacheEntry := cellAt h.entryCells a

/-- Assign through a `*CacheEntry`. -/
def Heap.writeEntry (h : Heap) (a : Nat) (e : CacheEntry) : Heap :=
  { h with entryCells := setCell h.entryCells a e }

/-- Read the bytes of a `[]byte` slice. -/
def Heap.bodyAt (h : Heap) (a : Nat) : Bytes := cellAt h.bodies a

/-- Overwrite the bytes of a `[]byte` slice (mutation visible through every
alias of the slice). -/
def Heap.writeBody (h : Heap) (a : Nat) (b : Bytes) : Heap :=
  { h with bodies := setCell h.bodies a b }

/-- Read the contents of an `http.Header` map. -/
def Heap.headersAt (h : Heap) (a : Nat) : HeaderMap := cellAt h.headerMaps a

/-- Overwrite the contents of an `http.Header` map. -/
def Heap.writeHeaders (h : Heap) (a : Nat) (m : HeaderMap) : Heap :=
  { h with headerMaps := setCell h.headerMaps a m }

/-- IsExpired (cache.go): `time.Now().After(e.ExpiresAt)`. -/
def CacheEntry.IsExpired (e : CacheEntry) (now : Int) : Bool :=
  decide (now > e.ExpiresAt)

/-- CacheStats (cache.go): `Hits`, `Misses`, `Size` are Go `int64`. -/
structure CacheStats where
  Hits : Int
  Misses : Int
  Size : Int
  deriving Repr, DecidableEq, Inhabited

/-- MemoryCache (cache.go).  `entries` is the guarded map from key to the
stored `*CacheEntry` address; `maxSize` is the Go `int` bound (0 means
unlimited); `stopChanClosed` counts executions of `close(stopChan)`;
`cleanupInterval` is irrelevant to the sequential model and dropped. -/
structure MemoryCache where
  entries : List (String × Nat)
  hits : Int
  misses : Int
  maxSize : Int
  stopped : Bool
  stopChanClosed : Nat
  deriving Repr, DecidableEq, Inhabited

/-- Go map read `c.entries[key]` (`nil, false` when absent). -/
def lookupAssoc : List (String × Nat) → String → Option Nat
  | [], _ => none
  | (k1, v1) :: rest, k => if k1 = k then some v1 else lookupAssoc rest k

/-- Go map assignment `c.entries[key] = v` (replace if present, else add). -/
def setAssoc : List (String × Nat) → String → Nat → List (String × Nat)
  | [], k, v => [(k, v)]
  | (k1, v1) :: rest, k, v =>
      if k1 = k then (k, v) :: rest else (k1, v1) :: setAssoc rest k v

/-- Go map deletion `delete(c.entries, key)`. -/
def eraseAssoc : List (String × Nat) → String → List (String × Nat)
  | [], _ => []
  | (k1, v1) :: rest, k =>
      if k1 = k then eraseAssoc rest k else (k1, v1) :: eraseAssoc rest k

/-- NewMemoryCache (cache.go): empty map, zero counters, `stopChan` open,
background goroutine started (its sweeps are modelled by separate
`cleanupExpired` transitions). -/
def NewMemoryCache (maxSize : Int) : MemoryCache :=
  { entries := [], hits := 0, misses := 0, maxSize := maxSize,
    stopped := false, stopChanClosed := 0 }

/-- Delete (cache.go lines 219-223). -/
def MemoryCache.Delete (c : MemoryCache) (key : String) : MemoryCache :=
  { c with entries := eraseAssoc c.entries key }

/-- Get (cache.go lines 167-195).  On a hit the returned entry is
`entryCopy`: a fresh struct whose five fields are copied from the stored
entry one by one, so the `Body` and `Headers` fields are the same heap
addresses as the stored entry's (a shallow copy).  Expiry is checked on the
copy, after the read; an expired entry is removed via `Delete` and counted
as a miss.  The return type (`Option CacheEntry`) carries no error value. -/
def MemoryCache.Get (c : MemoryCache) (h : Heap) (now : Int) (key : String) :
    MemoryCache × Option CacheEntry :=
  match lookupAssoc c.entries key with
  | none => ({ c with misses := c.misses + 1 }, none)
  | some addr =>
      let entryCopy : CacheEntry :=
        { Body := (h.entryAt addr).Body
          StatusCode := (h.entryAt addr).StatusCode
          Headers := (h.entryAt addr).Headers
          CreatedAt := (h.entryAt addr).CreatedAt
          ExpiresAt := (h.entryAt addr).ExpiresAt }
      if entryCopy.IsExpired now then
        let c1 := c.Delete key
        ({ c1 with misses := c1.misses + 1 }, none)
      else
        ({ c with hits := c.hits + 1 }, some entryCopy)

/-- The body of evictOne's `for key, entry := range c.entries` loop
(cache.go lines 256-280): `pending` is the part of the map left to scan,
`entries` the map being mutated; the first expired entry found is deleted
and the scan stops; otherwise `oldestKey`/`oldestTime` track the entry with
the earliest `CreatedAt` (`first` starts true, `oldestKey` starts as the Go
zero string), and after the scan `oldestKey` is deleted if it is non-empty. -/
def evictLoop (h : Heap) (now : Int) :
    List (String × Nat) → List (String × Nat) → String → Int → Bool →
    List (String × Nat)
  | [], entries, oldestKey, _, _ =>
      if oldestKey ≠ "" then eraseAssoc entries oldestKey else entries
  | (key, addr) :: rest, entries, oldestKey, oldestTime, first =>
      if (h.entryAt addr).IsExpired now then
        eraseAssoc entries key
      else if first = true ∨ (h.entryAt addr).CreatedAt < oldestTime then
        evictLoop h now rest entries key (h.entryAt addr).CreatedAt false
      else
        evictLoop h now rest entries oldestKey oldestTime first

/-- evictOne (cache.go lines 256-280), scanning the whole map. -/
def MemoryCache.evictOne (c : MemoryCache) (h : Heap) (now : Int) : MemoryCache :=
  { c with entries := evictLoop h now c.entries c.entries "" 0 true }

/-- Set (cache.go lines 198-216): a non-positive ttl returns immediately;
otherwise, when a capacity bound is configured and reached, one eviction
pass runs; then `ExpiresAt := now + ttl` is assigned through the caller's
`*CacheEntry` pointer and that same pointer is stored under `key`. -/
def MemoryCache.Set (c : MemoryCache) (h : Heap) (now : Int) (key : String)
    (entryAddr : Nat) (ttl : Int) : Heap × MemoryCache :=
  if ttl ≤ 0 then (h, c)
  else
    let c1 := if 0 < c.maxSize ∧ c.maxSize ≤ (c.entries.length : Int) then
        c.evictOne h now
      else c
    let h1 := h.writeEntry entryAddr
      { h.entryAt entryAddr with ExpiresAt := now + ttl }
    (h1, { c1 with entries := setAssoc c1.entries key entryAddr })

/-- Clear (cache.go lines 226-230). -/
def MemoryCache.Clear (c : MemoryCache) : MemoryCache :=
  { c with entries := [] }

/-- Stats (cache.go lines 233-243). -/
def MemoryCache.Stats (c : MemoryCache) : CacheStats :=
  { Hits := c.hits, Misses := c.misses, Size := (c.entries.length : Int) }

/-- Close (cache.go lines 246-253): under the lock, `close(stopChan)` runs
only when the `stopped` flag is still clear. -/
def MemoryCache.Close (c : MemoryCache) : MemoryCache :=
  if c.stopped = false then
    { c with stopped := true, stopChanClosed := c.stopChanClosed + 1 }
  else c

/-- cleanupExpired (cache.go lines 298-307): one background sweep. -/
def MemoryCache.cleanupExpired (c : MemoryCache) (h : Heap) (now : Int) :
    MemoryCache :=
  { c with entries :=
      c.entries.filter (fun p => !(h.entryAt p.2).IsExpired now) }

/-- RequestCacheOptions (cache.go): `Enabled` is a Go `*bool` (tri-state). -/
structure RequestCacheOptions where
  Enabled : Option Bool
  TTL : Int
  ForceRefresh : Bool
  CustomKey : String
  deriving Repr, DecidableEq, Inhabited

/-- CacheConfig (cache.go).  The `Cache` field is the configured store (a
`Cache` interface value); the policy functions consult only its nil-ness,
so it is modelled as an `Option Unit`.  `KeyFunc` and `CacheableMethods`
are nil-able (`Option`). -/
structure CacheConfig where
  Cache : Option Unit
  DefaultTTL : Int
  KeyFunc : Option (String → String → List (String × String) → String)
  CacheableMethods : Option (List String)

/-- RequestOptions (client.go), reduced to the fields the cache policy
reads: `Method`, `Headers` (`map[string]string`) and the per-request
`Cache *RequestCacheOptions` field (declared with the client options and
used throughout cache.go and its tests). -/
structure RequestOptions where
  Method : String
  Headers : List (String × String)
  Cache : Option RequestCacheOptions

/-- DefaultCacheKeyFunc (cache.go lines 113-115). -/
def DefaultCacheKeyFunc (method fullURL : String)
    (_ : List (String × String)) : String :=
  method ++ ":" ++ fullURL

/-- strings.EqualFold from the Go standard library, modelled by comparing
lower-casings (it agrees on the ASCII method names at issue). -/
def stringEqualFold (a b : String) : Bool := a.toLower == b.toLower

/-- isMethodCacheable (cache.go lines 331-342): a nil `CacheableMethods`
defaults to `["GET"]`; membership is case-insensitive. -/
def isMethodCacheable (cacheConfig : CacheConfig) (method : String) : Bool :=
  let methods := cacheConfig.CacheableMethods.getD ["GET"]
  methods.any (fun m => stringEqualFold m method)

/-- shouldCacheRequest (cache.go lines 310-328).  The client's config may be
nil (`Option CacheConfig`); `options.Cache.bind Enabled` is the Go chain
`options.Cache != nil && options.Cache.Enabled != nil` with the pointed
boolean. -/
def shouldCacheRequest (cacheConfig : Option CacheConfig)
    (options : RequestOptions) : Bool :=
  match cacheConfig with
  | none => false
  | some cfg =>
      if cfg.Cache.isNone then false
      else if options.Cache.bind RequestCacheOptions.Enabled = some false then
        false
      else if options.Cache.bind RequestCacheOptions.Enabled = some true then
        isMethodCacheable cfg options.Method
      else false

/-- shouldForceRefresh (cache.go lines 345-347). -/
def shouldForceRefresh (options : RequestOptions) : Bool :=
  match options.Cache with
  | none => false
  | some rc => rc.ForceRefresh

/-- generateCacheKey (cache.go lines 350-363): a non-empty per-request
`CustomKey` wins; else the configured `KeyFunc`; else the default. -/
def generateCacheKey (cacheConfig : CacheConfig) (options : RequestOptions)
    (fullURL : String) : String :=
  let customKey := (options.Cache.map RequestCacheOptions.CustomKey).getD ""
  if customKey ≠ "" then customKey
  else
    match cacheConfig.KeyFunc with
    | some keyFunc => keyFunc options.Method fullURL options.Headers
    | none => DefaultCacheKeyFunc options.Method fullURL options.Headers

/-- getCacheTTL (cache.go lines 366-374). -/
def getCacheTTL (cacheConfig : CacheConfig) (options : RequestOptions) : Int :=
  match options.Cache with
  | some rc => if 0 < rc.TTL then rc.TTL else cacheConfig.DefaultTTL
  | none => cacheConfig.DefaultTTL

/-! Concrete fixtures used by witnesses and counterexamples. -/

/-- Fixture entry stored at address 0: created at instant 0. -/
def entryA : CacheEntry :=
  { Body := 0, StatusCode := 200, Headers := 0, CreatedAt := 0, ExpiresAt := 0 }

/-- Fixture entry stored at address 1: created at instant 1. -/
def entryB : CacheEntry :=
  { Body := 1, StatusCode := 201, Headers := 1, CreatedAt := 1, ExpiresAt := 0 }

/-- Fixture entry stored at address 2: created at instant 2. -/
def entryC : CacheEntry :=
  { Body := 2, StatusCode := 202, Headers := 2, CreatedAt := 2, ExpiresAt := 0 }

/-- Fixture heap holding the three entries and their body slices and header
maps. -/
def heapABC : Heap :=
  { bodies := [[1], [2], [3]],
    headerMaps := [[("A", ["a"])], [], []],
    entryCells := [entryA, entryB, entryC] }

/-- Capacity-2 cache, three Sets under the distinct non-empty keys
`k1`, `k2`, `k3` at instants 0, 1, 2 (ttl 100, so nothing expires). -/
def evictScenario1 : Heap × MemoryCache := (NewMemoryCache 2).Set heapABC 0 "k1" 0 100

/-- Second step of the capacity-2 scenario. -/
def evictScenario2 : Heap × MemoryCache := evictScenario1.2.Set evictScenario1.1 1 "k2" 1 100

/-- Third step of the capacity-2 scenario: the cache is full, so this Set
runs an eviction pass. -/
def evictScenario3 : Heap × MemoryCache := evictScenario2.2.Set evictScenario2.1 2 "k3" 2 100

/-- Same trace but the first (oldest) entry is stored under the empty-string
key. -/
def emptyKeyTrace1 : Heap × MemoryCache := (NewMemoryCache 2).Set heapABC 0 "" 0 100

/-- Second step of the empty-key trace. -/
def emptyKeyTrace2 : Heap × MemoryCache := emptyKeyTrace1.2.Set emptyKeyTrace1.1 1 "kb" 1 100

/-- Third step of the empty-key trace: the eviction pass selects the oldest
key `""`, and the final `oldestKey != ""` guard then skips the delete. -/
def emptyKeyTrace3 : Heap × MemoryCache := emptyKeyTrace2.2.Set emptyKeyTrace2.1 2 "kc" 2 100

/-- Set `"k"` to the entry at address 0 (body slice at address 0 holding
`[1]`). -/
def copyTraceSet : Heap × MemoryCache := (NewMemoryCache 0).Set heapABC 0 "k" 0 10

/-- First Get: a hit returning the shallow copy. -/
def copyTraceGet1 : MemoryCache × Option CacheEntry :=
  copyTraceSet.2.Get copyTraceSet.1 1 "k"

/-- Mutate the bytes of the returned copy's `Body` slice (write `[9]`
through the copy's own `Body` reference). -/
def copyMutHeap : Heap :=
  copyTraceSet.1.writeBody ((copyTraceGet1.2.getD default).Body) [9]

/-- Second Get, after the mutation through the returned copy. -/
def copyTraceGet2 : MemoryCache × Option CacheEntry :=
  copyTraceGet1.1.Get copyMutHeap 1 "k"

/-- Per-request options whose `CustomKey` is the empty string. -/
def rcEmptyKey : RequestCacheOptions :=
  { Enabled := some true, TTL := 0, ForceRefresh := false, CustomKey := "" }

/-- Request options carrying `rcEmptyKey`. -/
def optsEmptyKey : RequestOptions :=
  { Method := "GET", Headers := [], Cache := some rcEmptyKey }

/-- A plain config: store present, no KeyFunc, no method allow-list. -/
def cfgPlain : CacheConfig :=
  { Cache := some (), DefaultTTL := 0, KeyFunc := none, CacheableMethods := none }

/-- A config whose `CacheableMethods` is a present but empty allow-list. -/
def cfgEmptyMethods : CacheConfig :=
  { Cache := some (), DefaultTTL := 0, KeyFunc := none, CacheableMethods := some [] }

/-- GET request that explicitly enables caching. -/
def optsEnabled : RequestOptions :=
  { Method := "GET", Headers := [],
    Cache := some { Enabled := some true, TTL := 60, ForceRefresh := false, CustomKey := "" } }

/-- A capacity-2 cache already holding the two fixture entries, hence full. -/
def cacheFull2 : MemoryCache :=
  { entries := [("k1", 0), ("k2", 1)], hits := 0, misses := 0, maxSize := 2,
    stopped := false, stopChanClosed := 0 }

/-! Helper lemmas about the assoc-list map and the heap cells. -/

/-- Reading back the key just written by a Go map assignment. -/
theorem lookupAssoc_setAssoc_self (l : List (String × Nat)) (k : String) (v : Nat) :
    lookupAssoc (setAssoc l k v) k = some v := by
  induction l with
  | nil => simp [setAssoc, lookupAssoc]
  | cons p rest ih =>
      obtain ⟨k1, v1⟩ := p
      by_cases hk : k1 = k
      · simp [setAssoc, hk, lookupAssoc]
      · simp [setAssoc, hk, lookupAssoc, ih]

/-- Reading back an in-range heap cell just written. -/
theorem cellAt_setCell_self {α : Type} [Inhabited α] :
    ∀ (l : List α) (n : Nat) (e : α), n < l.length →
      cellAt (setCell l n e) n = e := by
  intro l
  induction l with
  | nil => intro n e hn; simp at hn
  | cons x rest ih =>
      intro n e hn
      cases n with
      | zero => rfl
      | succ m => exact ih m e (by simpa using hn)

/-- A cache whose stop flag is set is a fixed point of `Close`. -/
theorem Close_stopped_fixed : ∀ (n : Nat) (c : MemoryCache), c.stopped = true →
    MemoryCache.Close^[n] c = c := by
  intro n
  induction n with
  | zero => intro c _; rfl
  | succ m ih =>
      intro c hc
      rw [Function.iterate_succ_apply]
      have hfix : c.Close = c := by simp [MemoryCache.Close, hc]
      rw [hfix]
      exact ih c hc

/-- C6: Set with a non-positive ttl leaves the whole state (heap and cache)
unchanged: nothing stored or replaced, `Stats` unaffected, and any
subsequent Get behaves exactly as without the Set. -/
theorem Set_nonpositive_ttl_noop (c : MemoryCache) (h : Heap) (now : Int)
    (key : String) (addr : Nat) (ttl : Int) (httl : ttl ≤ 0) :
    c.Set h now key addr ttl = (h, c) ∧
    ((c.Set h now key addr ttl).2).Stats = c.Stats ∧
    (∀ (now2 : Int) (k2 : String),
      ((c.Set h now key addr ttl).2).Get ((c.Set h now key addr ttl).1) now2 k2
        = c.Get h now2 k2) := by
  have hs : c.Set h now key addr ttl = (h, c) := by
    simp [MemoryCache.Set, httl]
  exact ⟨hs, by rw [hs], fun now2 k2 => by rw [hs]⟩

/-- Witness for C6 at ttl = 0. -/
theorem Set_nonpositive_ttl_noop_witness :
    (NewMemoryCache 0).Set heapABC 3 "k" 0 0 = (heapABC, NewMemoryCache 0) ∧
    (((NewMemoryCache 0).Set heapABC 3 "k" 0 0).2).Stats = (NewMemoryCache 0).Stats ∧
    (∀ (now2 : Int) (k2 : String),
      (((NewMemoryCache 0).Set heapABC 3 "k" 0 0).2).Get
          (((NewMemoryCache 0).Set heapABC 3 "k" 0 0).1) now2 k2
        = (NewMemoryCache 0).Get heapABC now2 k2) :=
  Set_nonpositive_ttl_noop (NewMemoryCache 0) heapABC 3 "k" 0 0 (by decide)

/-- C8: Close is idempotent: the first call sets the stop flag and closes
`stopChan` exactly once, later calls change nothing, and however many times
Close is iterated from a fresh cache the channel is closed at most once
(so the double-close panic is unreachable). -/
theorem Close_idempotent (c : MemoryCache) (m : Int) (n : Nat) :
    (c.Close).stopped = true ∧
    c.Close.Close = c.Close ∧
    (c.stopped = false → (c.Close).stopChanClosed = c.stopChanClosed + 1) ∧
    (c.stopped = true → c.Close = c) ∧
    (MemoryCache.Close^[n] (NewMemoryCache m)).stopChanClosed ≤ 1 := by
  refine ⟨?_, ?_, ?_, ?_, ?_⟩
  · by_cases hc : c.stopped = false <;> simp_all [MemoryCache.Close]
  · by_cases hc : c.stopped = false <;> simp [MemoryCache.Close, hc]
  · intro hc; simp [MemoryCache.Close, hc]
  · intro hc; simp [MemoryCache.Close, hc]
  · cases n with
    | zero => exact Nat.zero_le 1
    | succ k =>
        rw [Function.iterate_succ_apply]
        have h1 : (NewMemoryCache m).Close
            = { NewMemoryCache m with stopped := true, stopChanClosed := 1 } := by
          simp [MemoryCache.Close, NewMemoryCache]
        rw [h1, Close_stopped_fixed k _ rfl]

/-- C10: an empty-string `CustomKey` is treated as if no custom key were
supplied: `generateCacheKey` falls through to the configured `KeyFunc` or
the default key, exactly as when `options.Cache` is absent. -/
theorem generateCacheKey_empty_custom_key (cfg : CacheConfig)
    (opts : RequestOptions) (url : String) (rc : RequestCacheOptions)
    (hrc : opts.Cache = some rc) (hk : rc.CustomKey = "") :
    generateCacheKey cfg opts url
      = generateCacheKey cfg { opts with Cache := none } url := by
  simp [generateCacheKey, hrc, hk]

/-- Witness for C10 on a concrete request whose `CustomKey` is `""`. -/
theorem generateCacheKey_empty_custom_key_witness :
    generateCacheKey cfgPlain optsEmptyKey "u"
      = generateCacheKey cfgPlain { optsEmptyKey with Cache := none } "u" :=
  generateCacheKey_empty_custom_key cfgPlain optsEmptyKey "u" rcEmptyKey rfl rfl

/-- C7: cache-key precedence: a supplied (non-empty) per-request custom key
wins; otherwise a configured KeyFunc applied to (method, full URL, headers);
otherwise the default key `method ++ ":" ++ fullURL`. -/
theorem generateCacheKey_precedence (cfg : CacheConfig)
    (opts : RequestOptions) (url : String) :
    (∀ rc : RequestCacheOptions, opts.Cache = some rc → rc.CustomKey ≠ "" →
      generateCacheKey cfg opts url = rc.CustomKey) ∧
    ((opts.Cache.map RequestCacheOptions.CustomKey).getD "" = "" →
      ∀ f, cfg.KeyFunc = some f →
        generateCacheKey cfg opts url = f opts.Method url opts.Headers) ∧
    ((opts.Cache.map RequestCacheOptions.CustomKey).getD "" = "" →
      cfg.KeyFunc = none →
      generateCacheKey cfg opts url = opts.Method ++ ":" ++ url) := by
  refine ⟨?_, ?_, ?_⟩
  · intro rc hrc hk
    simp [generateCacheKey, hrc, hk]
  · intro hck f hf
    simp [generateCacheKey, hck, hf]
  · intro hck hf
    simp [generateCacheKey, hck, hf, DefaultCacheKeyFunc]

/-- C4: shouldCacheRequest is true exactly when a config with a store is
present, the request explicitly enabled caching, and the method passes the
case-insensitive allow-list test (defaulting to GET); with no config, no
store, Enabled unset or Enabled false it is false. -/
theorem shouldCacheRequest_iff (cfg? : Option CacheConfig)
    (opts : RequestOptions) :
    shouldCacheRequest cfg? opts = true ↔
      ∃ cfg, cfg? = some cfg ∧ cfg.Cache.isSome = true ∧
        opts.Cache.bind RequestCacheOptions.Enabled = some true ∧
        ∃ s ∈ cfg.CacheableMethods.getD ["GET"],
          s.toLower = opts.Method.toLower := by
  cases cfg? with
  | none => simp [shouldCacheRequest]
  | some cfg =>
      cases hC : cfg.Cache with
      | none => simp [shouldCacheRequest, hC]
      | some u =>
          cases hE : opts.Cache.bind RequestCacheOptions.Enabled with
          | none => simp [shouldCacheRequest, hC, hE]
          | some b =>
              cases b with
              | false => simp [shouldCacheRequest, hC, hE]
              | true =>
                  simp [shouldCacheRequest, hC, hE, isMethodCacheable,
                    stringEqualFold, List.any_eq_true, beq_iff_eq]

/-- C9: a present-but-empty CacheableMethods allow-list makes every method
non-cacheable (even GET, even when the request opted in), while the GET
default applies only to a nil allow-list. -/
theorem isMethodCacheable_empty_allowlist (cfg : CacheConfig)
    (opts : RequestOptions) (method : String)
    (hempty : cfg.CacheableMethods = some []) :
    isMethodCacheable cfg method = false ∧
    shouldCacheRequest (some cfg) opts = false ∧
    isMethodCacheable { cfg with CacheableMethods := none } "GET" = true := by
  have h1 : isMethodCacheable cfg method = false := by
    simp [isMethodCacheable, hempty]
  have h1all : ∀ m, isMethodCacheable cfg m = false := fun m => by
    simp [isMethodCacheable, hempty]
  refine ⟨h1, ?_, ?_⟩
  · cases hC : cfg.Cache with
    | none => simp [shouldCacheRequest, hC]
    | some u =>
        cases hE : opts.Cache.bind RequestCacheOptions.Enabled with
        | none => simp [shouldCacheRequest, hC, hE]
        | some b =>
            cases b with
            | false => simp [shouldCacheRequest, hC, hE]
            | true => simp [shouldCacheRequest, hC, hE, h1all]
  · simp [isMethodCacheable, stringEqualFold]

/-- Witness for C9 on a concrete config with an empty allow-list and a GET
request that opted in. -/
theorem isMethodCacheable_empty_allowlist_witness :
    isMethodCacheable cfgEmptyMethods "GET" = false ∧
    shouldCacheRequest (some cfgEmptyMethods) optsEnabled = false ∧
    isMethodCacheable { cfgEmptyMethods with CacheableMethods := none } "GET" = true :=
  isMethodCacheable_empty_allowlist cfgEmptyMethods optsEnabled "GET" rfl

/-- Heap of a positive-ttl Set: `ExpiresAt := now + ttl` assigned through
the caller's pointer. -/
theorem Set_heap_eq (c : MemoryCache) (h : Heap) (now : Int) (key : String)
    (addr : Nat) (ttl : Int) (httl : 0 < ttl) :
    (c.Set h now key addr ttl).1
      = h.writeEntry addr { h.entryAt addr with ExpiresAt := now + ttl } := by
  have hnle : ¬ ttl ≤ 0 := not_le.mpr httl
  simp [MemoryCache.Set, hnle]

/-- Entry map of a positive-ttl Set: optional eviction pass, then the Go
map assignment. -/
theorem Set_entries_eq (c : MemoryCache) (h : Heap) (now : Int) (key : String)
    (addr : Nat) (ttl : Int) (httl : 0 < ttl) :
    ((c.Set h now key addr ttl).2).entries
      = setAssoc ((if 0 < c.maxSize ∧ c.maxSize ≤ (c.entries.length : Int)
          then c.evictOne h now else c).entries) key addr := by
  have hnle : ¬ ttl ≤ 0 := not_le.mpr httl
  simp [MemoryCache.Set, hnle]

/-- Reading back the entry cell a Set just wrote. -/
theorem entryAt_writeEntry_self (h : Heap) (a : Nat) (e : CacheEntry)
    (ha : a < h.entryCells.length) : (h.writeEntry a e).entryAt a = e :=
  cellAt_setCell_self h.entryCells a e ha

/-- Counterexample to C2: the entry at address 0 has `CreatedAt = 0`; a Set
at instant 5 with ttl 1 stamps `ExpiresAt = 6`, which is not
`CreatedAt + ttl = 1`. -/
theorem Set_expiresAt_counterexample :
    ((((NewMemoryCache 0).Set heapABC 5 "k" 0 1).1).entryAt 0).ExpiresAt = 6 ∧
    ((((NewMemoryCache 0).Set heapABC 5 "k" 0 1).1).entryAt 0).CreatedAt + 1 = 1 ∧
    ((((NewMemoryCache 0).Set heapABC 5 "k" 0 1).1).entryAt 0).ExpiresAt ≠
      ((((NewMemoryCache 0).Set heapABC 5 "k" 0 1).1).entryAt 0).CreatedAt + 1 := by
  decide

/-- C2 (amended): a Set with ttl > 0 stamps the stored entry's `ExpiresAt`
to the insertion instant plus ttl — never taking the caller-supplied
`ExpiresAt` — and leaves every other field (including the caller-supplied
`CreatedAt`) unchanged; `ExpiresAt = CreatedAt + ttl` therefore holds
exactly when `CreatedAt` equals the insertion instant. -/
theorem Set_stamps_expiresAt (c : MemoryCache) (h : Heap) (now : Int)
    (key : String) (addr : Nat) (ttl : Int)
    (haddr : addr < h.entryCells.length) (httl : 0 < ttl) :
    lookupAssoc ((c.Set h now key addr ttl).2).entries key = some addr ∧
    (((c.Set h now key addr ttl).1).entryAt addr).ExpiresAt = now + ttl ∧
    (((c.Set h now key addr ttl).1).entryAt addr).CreatedAt
      = (h.entryAt addr).CreatedAt ∧
    (((c.Set h now key addr ttl).1).entryAt addr).StatusCode
      = (h.entryAt addr).StatusCode ∧
    (((c.Set h now key addr ttl).1).entryAt addr).Body = (h.entryAt addr).Body ∧
    (((c.Set h now key addr ttl).1).entryAt addr).Headers
      = (h.entryAt addr).Headers := by
  have hst : ((c.Set h now key addr ttl).1).entryAt addr
      = { h.entryAt addr with ExpiresAt := now + ttl } := by
    rw [Set_heap_eq c h now key addr ttl httl]
    exact entryAt_writeEntry_self h addr _ haddr
  refine ⟨?_, by rw [hst], by rw [hst], by rw [hst], by rw [hst], by rw [hst]⟩
  rw [Set_entries_eq c h now key addr ttl httl]
  exact lookupAssoc_setAssoc_self _ key addr

/-- Witness for C2's amended theorem: Set at instant 5 with ttl 3 on the
fixture heap. -/
theorem Set_stamps_expiresAt_witness :
    lookupAssoc (((NewMemoryCache 0).Set heapABC 5 "k" 0 3).2).entries "k" = some 0 ∧
    ((((NewMemoryCache 0).Set heapABC 5 "k" 0 3).1).entryAt 0).ExpiresAt = 5 + 3 ∧
    ((((NewMemoryCache 0).Set heapABC 5 "k" 0 3).1).entryAt 0).CreatedAt
      = (heapABC.entryAt 0).CreatedAt ∧
    ((((NewMemoryCache 0).Set heapABC 5 "k" 0 3).1).entryAt 0).StatusCode
      = (heapABC.entryAt 0).StatusCode ∧
    ((((NewMemoryCache 0).Set heapABC 5 "k" 0 3).1).entryAt 0).Body
      = (heapABC.entryAt 0).Body ∧
    ((((NewMemoryCache 0).Set heapABC 5 "k" 0 3).1).entryAt 0).Headers
      = (heapABC.entryAt 0).Headers :=
  Set_stamps_expiresAt (NewMemoryCache 0) heapABC 5 "k" 0 3 (by decide) (by decide)

/-- Counterexample to C1: after `Set "k"` the first Get hits and its
returned copy's `Body` field is the stored entry's slice address; writing
`[9]` through that returned reference changes the body bytes that every
subsequent Get observes (`[1]` before, `[9]` after), so the returned value
is not an independent copy of the stored entry. -/
theorem Get_shallow_copy_counterexample :
    (copyTraceGet1.2.map CacheEntry.Body)
      = some ((copyTraceSet.1.entryAt 0).Body) ∧
    (copyTraceGet1.2.map (fun e => copyTraceSet.1.bodyAt e.Body)) = some [1] ∧
    (copyTraceGet2.2.map (fun e => copyMutHeap.bodyAt e.Body)) = some [9] ∧
    (copyTraceGet2.2.map (fun e => copyMutHeap.bodyAt e.Body)) ≠
      (copyTraceGet1.2.map (fun e => copyTraceSet.1.bodyAt e.Body)) := by
  decide

/-- C1 (amended): Set followed by a Get before expiry returns a hit whose
entry is a fresh struct field-equal to the live stored entry (same `Body`,
`StatusCode`, `Headers`, `CreatedAt`, `ExpiresAt`); reassigning the returned
struct's own fields cannot affect the store (the struct is returned by
value and the entry map is unchanged), but the `Body` and `Headers` fields
are the stored entry's slice and map addresses (a shallow copy), so
mutating those contents is visible to subsequent Gets. -/
theorem Set_then_Get_shallow_copy (c : MemoryCache) (h : Heap)
    (now now2 : Int) (key : String) (addr : Nat) (ttl : Int)
    (haddr : addr < h.entryCells.length) (httl : 0 < ttl)
    (hfresh : now2 ≤ now + ttl) :
    (((c.Set h now key addr ttl).2).Get ((c.Set h now key addr ttl).1) now2 key).2
      = some (((c.Set h now key addr ttl).1).entryAt addr) ∧
    ((((c.Set h now key addr ttl).2).Get ((c.Set h now key addr ttl).1) now2 key).2.map
        CacheEntry.Body)
      = some (((c.Set h now key addr ttl).1).entryAt addr).Body ∧
    ((((c.Set h now key addr ttl).2).Get ((c.Set h now key addr ttl).1) now2 key).2.map
        CacheEntry.Headers)
      = some (((c.Set h now key addr ttl).1).entryAt addr).Headers ∧
    (((c.Set h now key addr ttl).2).Get ((c.Set h now key addr ttl).1) now2 key).1.entries
      = ((c.Set h now key addr ttl).2).entries := by
  have hlk : lookupAssoc ((c.Set h now key addr ttl).2).entries key = some addr := by
    rw [Set_entries_eq c h now key addr ttl httl]
    exact lookupAssoc_setAssoc_self _ key addr
  have hst : ((c.Set h now key addr ttl).1).entryAt addr
      = { h.entryAt addr with ExpiresAt := now + ttl } := by
    rw [Set_heap_eq c h now key addr ttl httl]
    exact entryAt_writeEntry_self h addr _ haddr
  have hexp : ¬ (now2 > now + ttl) := not_lt.mpr hfresh
  constructor
  · simp [MemoryCache.Get, hlk, hst, CacheEntry.IsExpired, hexp]
  constructor
  · simp [MemoryCache.Get, hlk, hst, CacheEntry.IsExpired, hexp]
  constructor
  · simp [MemoryCache.Get, hlk, hst, CacheEntry.IsExpired, hexp]
  · simp [MemoryCache.Get, hlk, hst, CacheEntry.IsExpired, hexp]

/-- Witness for C1's amended theorem on the fixture heap: Set at instant 0
with ttl 10, Get at instant 1. -/
theorem Set_then_Get_shallow_copy_witness :
    ((((NewMemoryCache 0).Set heapABC 0 "k" 0 10).2).Get
        (((NewMemoryCache 0).Set heapABC 0 "k" 0 10).1) 1 "k").2
      = some ((((NewMemoryCache 0).Set heapABC 0 "k" 0 10).1).entryAt 0) ∧
    (((((NewMemoryCache 0).Set heapABC 0 "k" 0 10).2).Get
        (((NewMemoryCache 0).Set heapABC 0 "k" 0 10).1) 1 "k").2.map
        CacheEntry.Body)
      = some ((((NewMemoryCache 0).Set heapABC 0 "k" 0 10).1).entryAt 0).Body ∧
    (((((NewMemoryCache 0).Set heapABC 0 "k" 0 10).2).Get
        (((NewMemoryCache 0).Set heapABC 0 "k" 0 10).1) 1 "k").2.map
        CacheEntry.Headers)
      = some ((((NewMemoryCache 0).Set heapABC 0 "k" 0 10).1).entryAt 0).Headers ∧
    ((((NewMemoryCache 0).Set heapABC 0 "k" 0 10).2).Get
        (((NewMemoryCache 0).Set heapABC 0 "k" 0 10).1) 1 "k").1.entries
      = (((NewMemoryCache 0).Set heapABC 0 "k" 0 10).2).entries :=
  Set_then_Get_shallow_copy (NewMemoryCache 0) heapABC 0 1 "k" 0 10
    (by decide) (by decide) (by decide)

/-- C5: every Get increments exactly one of the two counters (and cannot
signal an error: its result type has no error value): a hit — key present
and not expired — increments `hits` and returns the (copied) entry; a miss
— key absent or entry expired — increments `misses` and returns absence,
and an expired entry is removed from the map as a side effect, while a hit
or an absent key leaves the map unchanged. -/
theorem Get_hit_miss_spec (c : MemoryCache) (h : Heap) (now : Int)
    (key : String) :
    (((c.Get h now key).1.hits = c.hits + 1 ∧
        (c.Get h now key).1.misses = c.misses) ∨
      ((c.Get h now key).1.misses = c.misses + 1 ∧
        (c.Get h now key).1.hits = c.hits)) ∧
    ((c.Get h now key).2.isSome = true ↔
      ∃ addr, lookupAssoc c.entries key = some addr ∧
        (h.entryAt addr).IsExpired now = false) ∧
    ((c.Get h now key).1.hits = c.hits + 1 ↔ (c.Get h now key).2.isSome = true) ∧
    (∀ e, (c.Get h now key).2 = some e →
      ∃ addr, lookupAssoc c.entries key = some addr ∧ e = h.entryAt addr) ∧
    (∀ addr, lookupAssoc c.entries key = some addr →
      (h.entryAt addr).IsExpired now = true →
      (c.Get h now key).1.entries = eraseAssoc c.entries key) ∧
    (lookupAssoc c.entries key = none →
      (c.Get h now key).1.entries = c.entries) ∧
    ((c.Get h now key).2.isSome = true →
      (c.Get h now key).1.entries = c.entries) := by
  cases hlk : lookupAssoc c.entries key with
  | none => simp [MemoryCache.Get, hlk]
  | some addr =>
      cases hexp : (h.entryAt addr).IsExpired now with
      | false => simp [MemoryCache.Get, hlk, hexp]
      | true => simp [MemoryCache.Get, hlk, hexp, MemoryCache.Delete]

/-- When some pending entry is expired, the eviction scan deletes an expired
entry (the first one it reaches) and nothing else, whatever the
`oldestKey`/`oldestTime`/`first` accumulator holds. -/
theorem evictLoop_finds_expired (h : Heap) (now : Int) :
    ∀ (pending entries : List (String × Nat)) (ok : String) (ot : Int)
      (first : Bool),
      (∃ p ∈ pending, (h.entryAt p.2).IsExpired now = true) →
      ∃ p ∈ pending, (h.entryAt p.2).IsExpired now = true ∧
        evictLoop h now pending entries ok ot first = eraseAssoc entries p.1 := by
  intro pending
  induction pending with
  | nil => intro entries ok ot first hex; simp at hex
  | cons q rest ih =>
      intro entries ok ot first hex
      obtain ⟨k, a⟩ := q
      cases hq : (h.entryAt a).IsExpired now with
      | true =>
          refine ⟨(k, a), List.mem_cons_self _ _, hq, ?_⟩
          simp [evictLoop, hq]
      | false =>
          have hex' : ∃ p ∈ rest, (h.entryAt p.2).IsExpired now = true := by
            rcases hex with ⟨p, hp, hpe⟩
            rcases List.mem_cons.mp hp with heq | hmem
            · rw [heq] at hpe; rw [hpe] at hq; cases hq
            · exact ⟨p, hmem, hpe⟩
          by_cases hcond : (first = true ∨ (h.entryAt a).CreatedAt < ot)
          · obtain ⟨p, hmem, hpe, heq⟩ := ih entries k (h.entryAt a).CreatedAt false hex'
            refine ⟨p, List.mem_cons_of_mem _ hmem, hpe, ?_⟩
            rw [show evictLoop h now ((k, a) :: rest) entries ok ot first
                = evictLoop h now rest entries k (h.entryAt a).CreatedAt false from by
              simp [evictLoop, hq, hcond]]
            exact heq
          · obtain ⟨p, hmem, hpe, heq⟩ := ih entries ok ot first hex'
            refine ⟨p, List.mem_cons_of_mem _ hmem, hpe, ?_⟩
            rw [show evictLoop h now ((k, a) :: rest) entries ok ot first
                = evictLoop h now rest entries ok ot first from by
              simp [evictLoop, hq, hcond]]
            exact heq

/-- Invariant of the oldest-tracking phase: with no expired entry pending,
no empty pending key, and a non-empty current oldest key, the scan ends by
deleting a key `r` whose `CreatedAt` (`t`) is minimal among the accumulator
and everything pending. -/
theorem evictLoop_oldest (h : Heap) (now : Int) :
    ∀ (pending : List (String × Nat)) (ok : String) (ot : Int)
      (entries : List (String × Nat)),
      (∀ p ∈ pending, (h.entryAt p.2).IsExpired now = false) →
      (∀ p ∈ pending, p.1 ≠ "") → ok ≠ "" →
      ∃ r t, evictLoop h now pending entries ok ot false = eraseAssoc entries r ∧
        ((r = ok ∧ t = ot) ∨
          ∃ p ∈ pending, r = p.1 ∧ t = (h.entryAt p.2).CreatedAt) ∧
        t ≤ ot ∧ ∀ q ∈ pending, t ≤ (h.entryAt q.2).CreatedAt := by
  intro pending
  induction pending with
  | nil =>
      intro ok ot entries _ _ hok
      exact ⟨ok, ot, by simp [evictLoop, hok], Or.inl ⟨rfl, rfl⟩, le_refl ot,
        by simp⟩
  | cons q rest ih =>
      intro ok ot entries hnoexp hkeys hok
      obtain ⟨k, a⟩ := q
      have hq : (h.entryAt a).IsExpired now = false :=
        hnoexp (k, a) (List.mem_cons_self _ _)
      have hk : k ≠ "" := hkeys (k, a) (List.mem_cons_self _ _)
      have hnoexp' : ∀ p ∈ rest, (h.entryAt p.2).IsExpired now = false :=
        fun p hp => hnoexp p (List.mem_cons_of_mem _ hp)
      have hkeys' : ∀ p ∈ rest, p.1 ≠ "" :=
        fun p hp => hkeys p (List.mem_cons_of_mem _ hp)
      by_cases hlt : (h.entryAt a).CreatedAt < ot
      · obtain ⟨r, t, heq, horig, hle, hall⟩ :=
          ih k (h.entryAt a).CreatedAt entries hnoexp' hkeys' hk
        refine ⟨r, t, ?_, ?_, le_of_lt (lt_of_le_of_lt hle hlt), ?_⟩
        · rw [show evictLoop h now ((k, a) :: rest) entries ok ot false
              = evictLoop h now rest entries k (h.entryAt a).CreatedAt false from by
            simp [evictLoop, hq, hlt]]
          exact heq
        · rcases horig with ⟨hr, ht⟩ | ⟨p, hp, hr, ht⟩
          · exact Or.inr ⟨(k, a), List.mem_cons_self _ _, hr, ht⟩
          · exact Or.inr ⟨p, List.mem_cons_of_mem _ hp, hr, ht⟩
        · intro qq hqq
          rcases List.mem_cons.mp hqq with heq2 | hmem
          · rw [heq2]; exact hle
          · exact hall qq hmem
      · obtain ⟨r, t, heq, horig, hle, hall⟩ := ih ok ot entries hnoexp' hkeys' hok
        refine ⟨r, t, ?_, ?_, hle, ?_⟩
        · rw [show evictLoop h now ((k, a) :: rest) entries ok ot false
              = evictLoop h now rest entries ok ot false from by
            simp [evictLoop, hq, hlt]]
          exact heq
        · rcases horig with h1 | ⟨p, hp, hr, ht⟩
          · exact Or.inl h1
          · exact Or.inr ⟨p, List.mem_cons_of_mem _ hp, hr, ht⟩
        · intro qq hqq
          rcases List.mem_cons.mp hqq with heq2 | hmem
          · rw [heq2]; exact le_trans hle (not_lt.mp hlt)
          · exact hall qq hmem

/-- With no expired entry and no empty key, one full eviction pass removes
an entry whose `CreatedAt` is minimal over the whole map. -/
theorem evictOne_oldest (h : Heap) (now : Int) (c : MemoryCache)
    (hne : c.entries ≠ [])
    (hnoexp : ∀ p ∈ c.entries, (h.entryAt p.2).IsExpired now = false)
    (hkeys : ∀ p ∈ c.entries, p.1 ≠ "") :
    ∃ p ∈ c.entries,
      (∀ q ∈ c.entries, (h.entryAt p.2).CreatedAt ≤ (h.entryAt q.2).CreatedAt) ∧
      (c.evictOne h now).entries = eraseAssoc c.entries p.1 := by
  obtain ⟨q, rest, hE⟩ : ∃ q rest, c.entries = q :: rest := by
    cases hE : c.entries with
    | nil => exact absurd hE hne
    | cons q rest => exact ⟨q, rest, rfl⟩
  obtain ⟨k, a⟩ := q
  have hq : (h.entryAt a).IsExpired now = false :=
    hnoexp (k, a) (hE ▸ List.mem_cons_self _ _)
  have hk : k ≠ "" := hkeys (k, a) (hE ▸ List.mem_cons_self _ _)
  have hstep : (c.evictOne h now).entries
      = evictLoop h now rest c.entries k (h.entryAt a).CreatedAt false := by
    show evictLoop h now c.entries c.entries "" 0 true
        = evictLoop h now rest c.entries k (h.entryAt a).CreatedAt false
    conv_lhs => rw [hE]
    simp [evictLoop, hq]
    rw [hE]
  obtain ⟨r, t, heq, horig, hle, hall⟩ :=
    evictLoop_oldest h now rest k (h.entryAt a).CreatedAt c.entries
      (fun p hp => hnoexp p (hE ▸ List.mem_cons_of_mem _ hp))
      (fun p hp => hkeys p (hE ▸ List.mem_cons_of_mem _ hp)) hk
  have hmin : ∀ qq ∈ c.entries, t ≤ (h.entryAt qq.2).CreatedAt := by
    intro qq hqq
    rw [hE] at hqq
    rcases List.mem_cons.mp hqq with heq2 | hmem
    · rw [heq2]; exact hle
    · exact hall qq hmem
  rcases horig with ⟨hr, ht⟩ | ⟨p, hp, hr, ht⟩
  · refine ⟨(k, a), hE ▸ List.mem_cons_self _ _, ?_, ?_⟩
    · intro qq hqq
      have := hmin qq hqq
      rw [ht] at this
      exact this
    · rw [hstep, heq, hr]
  · refine ⟨p, hE ▸ List.mem_cons_of_mem _ hp, ?_, ?_⟩
    · intro qq hqq
      have := hmin qq hqq
      rw [ht] at this
      exact this
    · rw [hstep, heq, hr]

/-- Counterexample to C3: with `MaxSize = 2`, three Sets of non-expired
entries under the distinct keys `""`, `"kb"`, `"kc"` leave 3 entries, not
2: the eviction pass selects the oldest key `""` but the final
`oldestKey != ""` guard skips the delete, so no entry is removed before
the insert. -/
theorem Set_eviction_empty_key_counterexample :
    (emptyKeyTrace2.1.entryAt 0).IsExpired 2 = false ∧
    (emptyKeyTrace2.1.entryAt 1).IsExpired 2 = false ∧
    emptyKeyTrace2.2.entries.length = 2 ∧
    emptyKeyTrace3.2.entries.length = 3 ∧
    lookupAssoc emptyKeyTrace3.2.entries "" = some 0 ∧
    emptyKeyTrace3.2.entries.length ≠ 2 := by
  decide

/-- C3 (amended): when a full capacity-bounded cache runs `Set` with a
positive ttl, the eviction pass deletes the first already-expired entry in
scan order if one exists; with no expired entry and no entry keyed by the
empty string it deletes an entry with minimal `CreatedAt`; the new entry is
then inserted into the map with that single key erased.  (When the selected
oldest key is the empty string, the `oldestKey != ""` guard skips the
delete — the counterexample — so the empty-key exception is the one change
from the original claim.)  In particular the concrete `MaxSize = 2`
scenario with keys `k1`, `k2`, `k3` ends with exactly the 2 newest entries. -/
theorem Set_eviction_policy (c : MemoryCache) (h : Heap) (now : Int)
    (key : String) (addr : Nat) (ttl : Int)
    (hmax : 0 < c.maxSize) (hfull : c.maxSize ≤ (c.entries.length : Int))
    (httl : 0 < ttl) :
    ((∃ p ∈ c.entries, (h.entryAt p.2).IsExpired now = true) →
      ∃ p ∈ c.entries, (h.entryAt p.2).IsExpired now = true ∧
        ((c.Set h now key addr ttl).2).entries
          = setAssoc (eraseAssoc c.entries p.1) key addr) ∧
    ((∀ p ∈ c.entries, (h.entryAt p.2).IsExpired now = false) →
      (∀ p ∈ c.entries, p.1 ≠ "") →
      ∃ p ∈ c.entries,
        (∀ q ∈ c.entries, (h.entryAt p.2).CreatedAt ≤ (h.entryAt q.2).CreatedAt) ∧
        ((c.Set h now key addr ttl).2).entries
          = setAssoc (eraseAssoc c.entries p.1) key addr) ∧
    (evictScenario3.2.entries.length = 2 ∧
      lookupAssoc evictScenario3.2.entries "k1" = none ∧
      lookupAssoc evictScenario3.2.entries "k2" = some 1 ∧
      lookupAssoc evictScenario3.2.entries "k3" = some 2) := by
  have hent : ((c.Set h now key addr ttl).2).entries
      = setAssoc ((c.evictOne h now).entries) key addr := by
    rw [Set_entries_eq c h now key addr ttl httl, if_pos ⟨hmax, hfull⟩]
  refine ⟨?_, ?_, by decide⟩
  · intro hex
    obtain ⟨p, hp, hpe, heq⟩ :=
      evictLoop_finds_expired h now c.entries c.entries "" 0 true hex
    refine ⟨p, hp, hpe, ?_⟩
    rw [hent]
    have : (c.evictOne h now).entries = eraseAssoc c.entries p.1 := heq
    rw [this]
  · intro hnoexp hkeys
    have hne : c.entries ≠ [] := by
      have hlen : (0 : Int) < (c.entries.length : Int) := lt_of_lt_of_le hmax hfull
      have : 0 < c.entries.length := by exact_mod_cast hlen
      exact List.ne_nil_of_length_pos this
    obtain ⟨p, hp, hmin, heq⟩ := evictOne_oldest h now c hne hnoexp hkeys
    refine ⟨p, hp, hmin, ?_⟩
    rw [hent, heq]

/-- Witness for C3's amended theorem: the full capacity-2 fixture cache,
Set of `k3` at instant 2. -/
theorem Set_eviction_policy_witness :
    ((∃ p ∈ cacheFull2.entries, (heapABC.entryAt p.2).IsExpired 2 = true) →
      ∃ p ∈ cacheFull2.entries, (heapABC.entryAt p.2).IsExpired 2 = true ∧
        ((cacheFull2.Set heapABC 2 "k3" 2 100).2).entries
          = setAssoc (eraseAssoc cacheFull2.entries p.1) "k3" 2) ∧
    ((∀ p ∈ cacheFull2.entries, (heapABC.entryAt p.2).IsExpired 2 = false) →
      (∀ p ∈ cacheFull2.entries, p.1 ≠ "") →
      ∃ p ∈ cacheFull2.entries,
        (∀ q ∈ cacheFull2.entries,
          (heapABC.entryAt p.2).CreatedAt ≤ (heapABC.entryAt q.2).CreatedAt) ∧
        ((cacheFull2.Set heapABC 2 "k3" 2 100).2).entries
          = setAssoc (eraseAssoc cacheFull2.entries p.1) "k3" 2) ∧
    (evictScenario3.2.entries.length = 2 ∧
      lookupAssoc evictScenario3.2.entries "k1" = none ∧
      lookupAssoc evictScenario3.2.entries "k2" = some 1 ∧
      lookupAssoc evictScenario3.2.entries "k3" = some 2) :=
  Set_eviction_policy cacheFull2 heapABC 2 "k3" 2 100
    (by decide) (by decide) (by decide)
